import Mathlib

/-!
Shallow embedding of the Identity & Credential Issuance core of
`irl-browser-onboarding` (src/core/crypto.ts and the payload-building part of
src/core/api.ts), together with proofs settling the frozen claims about it.

Bytes are modelled as `List Nat` (each entry intended < 256), strings as Lean
`String` / `List Char`.  External npm dependencies (`base64-js`,
`base58-universal`, `@stablelib/ed25519`, the JS `JSON.stringify` and
`String.prototype.split`) are not part of the repository source; they are
modelled from the specification's description of their contracts, as documented
on each definition.  Everything written in crypto.ts itself (the base64url
wrapper, DID assembly, JWT construction and verification) is translated
directly from that source.
-/

set_option maxRecDepth 8192

namespace Irl

/-- Standard base64 alphabet (RFC 4648), used by the modelled `base64-js`
encoder and decoder. -/
def b64Alphabet : List Char :=
  ['A','B','C','D','E','F','G','H','I','J','K','L','M',
   'N','O','P','Q','R','S','T','U','V','W','X','Y','Z',
   'a','b','c','d','e','f','g','h','i','j','k','l','m',
   'n','o','p','q','r','s','t','u','v','w','x','y','z',
   '0','1','2','3','4','5','6','7','8','9','+','/']

/-- Character of the standard base64 alphabet at index `i`. -/
def b64Char (i : Nat) : Char := b64Alphabet.getD i 'A'

/-- Index of a character in a character list (`none` when absent). -/
def lookupIdx : List Char → Char → Option Nat
  | [], _ => none
  | x :: xs, c => if x = c then some 0 else (lookupIdx xs c).map (· + 1)

/-- Index of a character in the standard base64 alphabet. -/
def b64Index (c : Char) : Option Nat := lookupIdx b64Alphabet c

namespace base64

/-- Modelled from the spec: the `base64-js` encoder (`fromByteArray`) is an
external dependency whose source is not in the repository; spec section 4.1
describes it as standard base64.  Encodes bytes in 3-byte groups into 4
alphabet characters, padding the final incomplete group with `=`. -/
def encGroups : List Nat → List Char
  | [] => []
  | [a] => [b64Char (a / 4), b64Char (a % 4 * 16), '=', '=']
  | [a, b] => [b64Char (a / 4), b64Char (a % 4 * 16 + b / 16), b64Char (b % 16 * 4), '=']
  | a :: b :: c :: rest =>
      b64Char (a / 4) :: b64Char (a % 4 * 16 + b / 16) :: b64Char (b % 16 * 4 + c / 64) ::
        b64Char (c % 64) :: encGroups rest

/-- Standard base64 encoding of a byte list, as a string
(models `base64.fromByteArray`). -/
def fromByteArray (bs : List Nat) : String := String.mk (encGroups bs)

/-- Decode one full group of 4 alphabet characters into 3 bytes; fails if any
character is outside the alphabet. -/
def dec4 (c0 c1 c2 c3 : Char) : Option (List Nat) :=
  match b64Index c0, b64Index c1, b64Index c2, b64Index c3 with
  | some i0, some i1, some i2, some i3 =>
      some [i0 * 4 + i1 / 16, i1 % 16 * 16 + i2 / 4, i2 % 4 * 64 + i3]
  | _, _, _, _ => none

/-- Decode the final group of 4 characters, allowing one or two trailing `=`
padding characters. -/
def decLast (c0 c1 c2 c3 : Char) : Option (List Nat) :=
  if c3 = '=' then
    if c2 = '=' then
      match b64Index c0, b64Index c1 with
      | some i0, some i1 => some [i0 * 4 + i1 / 16]
      | _, _ => none
    else
      match b64Index c0, b64Index c1, b64Index c2 with
      | some i0, some i1, some i2 => some [i0 * 4 + i1 / 16, i1 % 16 * 16 + i2 / 4]
      | _, _, _ => none
  else dec4 c0 c1 c2 c3

/-- Modelled from the spec: strict standard base64 decoding over groups of 4
characters (spec section 4.1: the decode "fails with DecodeError on malformed
alphabet or impossible length").  Padding is permitted only at the end of the
final group. -/
def decGroups : List Char → Option (List Nat)
  | c0 :: c1 :: c2 :: c3 :: rest =>
      if rest.isEmpty then decLast c0 c1 c2 c3
      else
        match dec4 c0 c1 c2 c3, decGroups rest with
        | some b, some r => some (b ++ r)
        | _, _ => none
  | [] => some []
  | _ => none

/-- Modelled from the spec: `base64.toByteArray` of the external `base64-js`
dependency; rejects strings whose length is not a multiple of 4, then performs
the strict standard base64 decode. -/
def toByteArrayChars (l : List Char) : Except String (List Nat) :=
  if l.length % 4 ≠ 0 then
    Except.error "Invalid string. Length must be a multiple of 4"
  else
    match decGroups l with
    | some bs => Except.ok bs
    | none => Except.error "Invalid base64 input"

/-- String-level entry point of the modelled `base64.toByteArray`. -/
def toByteArray (s : String) : Except String (List Nat) := toByteArrayChars s.data

end base64

/-- Character translation performed by `base64url.encode` in crypto.ts:
`+` becomes `-` and `/` becomes `_` (the regex replaces on lines 29-30). -/
def urlTr (c : Char) : Char := if c = '+' then '-' else if c = '/' then '_' else c

/-- Character translation performed by `base64url.decode` in crypto.ts:
`-` becomes `+` and `_` becomes `/` (the regex replaces on lines 37-38). -/
def unUrlTr (c : Char) : Char := if c = '-' then '+' else if c = '_' then '/' else c

namespace base64url

/-- Translation of `base64url.encode` (crypto.ts lines 26-32): standard base64,
then `+` to `-`, `/` to `_`, and all `=` padding removed. -/
def encodeChars (input : List Nat) : List Char :=
  ((base64.encGroups input).map urlTr).filter (fun c => c ≠ '=')

/-- String-level `base64url.encode`. -/
def encode (input : List Nat) : String := String.mk (encodeChars input)

theorem encode_data (input : List Nat) : (encode input).data = encodeChars input := rfl

/-- Translation of `base64url.decode` (crypto.ts lines 34-45): translate the
url-safe characters back, re-add `=` padding up to the next multiple of 4,
then run the standard base64 decode. -/
def decodeChars (input : List Char) : Except String (List Nat) :=
  let s := input.map unUrlTr
  let padding := (4 - s.length % 4) % 4
  base64.toByteArrayChars (s ++ List.replicate padding '=')

/-- String-level `base64url.decode`. -/
def decode (input : String) : Except String (List Nat) := decodeChars input.data

end base64url

/-- UTF-8 encoding of a single character (models the JS `TextEncoder`, an
environment-provided primitive: one byte below U+0080, two bytes below U+0800,
three below U+10000, four above). -/
def utf8Char (c : Char) : List Nat :=
  let n := c.toNat
  if n < 128 then [n]
  else if n < 2048 then [192 + n / 64, 128 + n % 64]
  else if n < 65536 then [224 + n / 4096, 128 + n / 64 % 64, 128 + n % 64]
  else [240 + n / 262144, 128 + n / 4096 % 64, 128 + n / 64 % 64, 128 + n % 64]

/-- UTF-8 encoding of a character list (models `new TextEncoder().encode`). -/
def utf8 (l : List Char) : List Nat := (l.map utf8Char).flatten

namespace ed25519

/-- Mixing step of the deterministic tag used by the modelled signature
scheme. -/
def mix (acc b : Nat) : Nat := (acc * 131 + b + 17) % 65536

/-- Accumulated state over public key and message. -/
def macSeed (pk msg : List Nat) : Nat := (pk ++ msg).foldl mix 5381

/-- Modelled from the spec: the `@stablelib/ed25519` dependency is not part of
this repository.  Per spec sections 4.4-4.5 the scheme produces a
deterministic 64-byte signature from the 64-byte secret key and the message,
and verification accepts exactly the signature produced with the matching
key.  `mac` is the shared deterministic 64-byte tag computed from the public
key and the message. -/
def mac (pk msg : List Nat) : List Nat :=
  (List.range 64).map (fun i => mix (macSeed pk msg) i % 256)

/-- Modelled from the spec (section 4.2): Ed25519 public-key derivation from a
32-byte seed is deterministic; here it is an arbitrary fixed byte-wise
bijection. -/
def pubFromSeed (seed : List Nat) : List Nat := seed.map (fun b => (b + 7) % 256)

/-- Modelled from the spec: `ed25519.sign(secretKey, message)`; the secret key
is `seed ‖ publicKey` (64 bytes, spec section 3) and signing rejects any other
length (the library throws).  The signature is the deterministic tag under the
embedded public key (the second half of the secret key). -/
def sign (secretKey msg : List Nat) : Except String (List Nat) :=
  if secretKey.length ≠ 64 then Except.error "ed25519: secret key must be 64 bytes"
  else Except.ok (mac (secretKey.drop 32) msg)

/-- Modelled from the spec: `ed25519.verify(publicKey, message, signature)`
returns `true` exactly when the signature is the 64-byte tag for that message
under that 32-byte public key (spec section 4.5: any malformed signature
length or mismatch yields `false`). -/
def verify (publicKey msg sig : List Nat) : Bool :=
  sig.length = 64 && publicKey.length = 32 && sig = mac publicKey msg

end ed25519

/-- Bitcoin base58 alphabet. -/
def base58Alphabet : List Char :=
  ['1','2','3','4','5','6','7','8','9',
   'A','B','C','D','E','F','G','H','J','K','L','M','N','P','Q','R','S','T','U','V','W','X','Y','Z',
   'a','b','c','d','e','f','g','h','i','j','k','m','n','o','p','q','r','s','t','u','v','w','x','y','z']

/-- Character of the base58 alphabet at index `i`. -/
def b58Char (i : Nat) : Char := base58Alphabet.getD i '1'

/-- Big-endian interpretation of a byte list as a natural number. -/
def beNat (bs : List Nat) : Nat := bs.foldl (fun acc b => acc * 256 + b) 0

/-- Base58 digit expansion, most significant digit first.  The first argument
is fuel bounding the recursion depth; `n` itself always suffices since the
value shrinks by a factor of 58 each step. -/
def natToB58Go : Nat → Nat → List Char
  | _, 0 => []
  | 0, _ => []
  | fuel + 1, n + 1 => natToB58Go fuel ((n + 1) / 58) ++ [b58Char ((n + 1) % 58)]

/-- Base58 digits of a natural number (empty for 0). -/
def natToB58 (n : Nat) : List Char := natToB58Go n n

/-- Modelled from the spec: `base58-universal`'s `encode` is an external
dependency; spec section 4.1 describes it as standard base58 with the Bitcoin
alphabet: leading zero bytes map to leading `1` characters, the remaining
value is written in base 58, most significant digit first. -/
def base58Encode (bs : List Nat) : String :=
  let zeros := (bs.takeWhile (fun b => b == 0)).length
  String.mk (List.replicate zeros '1' ++ natToB58 (beNat bs))

/-- Ed25519 multicodec prefix for did:key format (crypto.ts line 16):
`0xed = 237`, `0x01 = 1`. -/
def ED25519_MULTICODEC_PREFIX : List Nat := [237, 1]

/-- Translation of `createDidFromPublicKey` (crypto.ts lines 99-110): prepend
the multicodec prefix, base58-encode, and wrap in the `did:key:z` form.  The
source performs no validation of the key length. -/
def createDidFromPublicKey (publicKey : List Nat) : String :=
  let multicodecKey := ED25519_MULTICODEC_PREFIX ++ publicKey
  let encoded := base58Encode multicodecKey
  "did:key:z" ++ encoded

/-- The constant JWT header of crypto.ts lines 145-148 after
`JSON.stringify`: JS object-literal key order is insertion order, so the
serialization is fixed. -/
def headerJson : String := "\x7b\"alg\":\"EdDSA\",\"typ\":\"JWT\"\x7d"

/-- Translation of `createJWT` (crypto.ts lines 135-166).  The first argument
stands for `JSON.stringify(payload)`: the JSON serializer is a deterministic
environment primitive, so the payload is represented by its serialization.
Decodes the base64 private key, rejects any length other than 64, base64url-
encodes the header and payload serializations, signs the signing input
`headerB64 ++ "." ++ payloadB64`, and returns the three-segment token.
Thrown JS errors are modelled as `Except.error`. -/
def createJWT (payloadJson : String) (privateKey : String) : Except String String :=
  match base64.toByteArray privateKey with
  | Except.error e => Except.error e
  | Except.ok privateKeyBytes =>
    if privateKeyBytes.length ≠ 64 then
      Except.error "Invalid private key length. Expected 64 bytes."
    else
      let headerB64 := base64url.encodeChars (utf8 headerJson.data)
      let payloadB64 := base64url.encodeChars (utf8 payloadJson.data)
      let signingInput := headerB64 ++ '.' :: payloadB64
      match ed25519.sign privateKeyBytes (utf8 signingInput) with
      | Except.error e => Except.error e
      | Except.ok sg => Except.ok (String.mk (signingInput ++ '.' :: base64url.encodeChars sg))

/-- JS `string.split('.')` on a character list: splitting on a single-character
separator, where the empty string yields one empty segment and adjacent dots
yield empty segments. -/
def splitDots : List Char → List (List Char)
  | [] => [[]]
  | c :: rest =>
      if c = '.' then [] :: splitDots rest
      else
        match splitDots rest with
        | [] => [[c]]
        | s :: ss => (c :: s) :: ss

/-- Translation of `verifyJWT` (crypto.ts lines 202-225): split on `.`, return
`false` unless there are exactly 3 segments, rebuild the signing input from
the first two segments verbatim, base64url-decode the third as the signature
and run Ed25519 verification.  The surrounding `try/catch` that converts any
thrown decode error into `false` is the `Except.error` branch. -/
def verifyJWT (jwt : String) (publicKey : List Nat) : Bool :=
  match splitDots jwt.data with
  | [encodedHeader, encodedPayload, encodedSignature] =>
      let signingInput := encodedHeader ++ '.' :: encodedPayload
      match base64url.decodeChars encodedSignature with
      | Except.error _ => false
      | Except.ok signatureBytes => ed25519.verify publicKey (utf8 signingInput) signatureBytes
  | _ => false

/-! ### Generic helpers -/

/-- Induction on a byte list three elements at a time, matching the group
structure of the base64 encoder. -/
theorem chunk3Induction {P : List Nat → Prop} (h0 : P []) (h1 : ∀ a, P [a])
    (h2 : ∀ a b, P [a, b])
    (h3 : ∀ a b c rest, P rest → P (a :: b :: c :: rest)) : ∀ l, P l
  | [] => h0
  | [a] => h1 a
  | [a, b] => h2 a b
  | a :: b :: c :: rest => h3 a b c rest (chunk3Induction h0 h1 h2 h3 rest)

/-- Induction on a character list four elements at a time, matching the group
structure of the base64 decoder. -/
theorem chunk4Induction {P : List Char → Prop} (h0 : P []) (h1 : ∀ a, P [a])
    (h2 : ∀ a b, P [a, b]) (h3 : ∀ a b c, P [a, b, c])
    (h4 : ∀ a b c d rest, P rest → P (a :: b :: c :: d :: rest)) : ∀ l, P l
  | [] => h0
  | [a] => h1 a
  | [a, b] => h2 a b
  | [a, b, c] => h3 a b c
  | a :: b :: c :: d :: rest => h4 a b c d rest (chunk4Induction h0 h1 h2 h3 h4 rest)

/-- An indexed read with a default that belongs to the list stays in the
list. -/
theorem getD_mem_of_default_mem {l : List Char} {d : Char} (hd : d ∈ l) (i : Nat) :
    l.getD i d ∈ l := by
  by_cases h : i < l.length
  · rw [List.getD_eq_getElem l d h]
    exact List.getElem_mem h
  · rw [List.getD_eq_default l d (le_of_not_lt h)]
    exact hd

/-! ### Alphabet facts -/

theorem b64Char_mem (i : Nat) : b64Char i ∈ b64Alphabet :=
  getD_mem_of_default_mem (by decide) i

theorem pad_not_mem_b64 : '=' ∉ b64Alphabet := by decide

theorem dot_not_mem_b64 : '.' ∉ b64Alphabet := by decide

theorem b64Char_ne_pad (i : Nat) : b64Char i ≠ '=' :=
  fun h => pad_not_mem_b64 (h ▸ b64Char_mem i)

theorem b64Char_ne_dot (i : Nat) : b64Char i ≠ '.' :=
  fun h => dot_not_mem_b64 (h ▸ b64Char_mem i)

theorem b64Index_b64Char : ∀ i, i < 64 → b64Index (b64Char i) = some i := by decide

theorem urlTr_ne_pad {c : Char} (h : c ≠ '=') : urlTr c ≠ '=' := by
  unfold urlTr
  split_ifs <;> simp_all <;> decide

theorem urlTr_ne_dot {c : Char} (h : c ≠ '.') : urlTr c ≠ '.' := by
  unfold urlTr
  split_ifs <;> simp_all <;> decide

theorem unUrlTr_urlTr_of_mem : ∀ c ∈ b64Alphabet, unUrlTr (urlTr c) = c := by decide

theorem unUrlTr_urlTr_pad : unUrlTr (urlTr '=') = '=' := by decide

/-! ### Standard base64 round trip -/

namespace base64

theorem encGroups_cons3 (a b c : Nat) (rest : List Nat) :
    encGroups (a :: b :: c :: rest) =
      b64Char (a / 4) :: b64Char (a % 4 * 16 + b / 16) :: b64Char (b % 16 * 4 + c / 64) ::
        b64Char (c % 64) :: encGroups rest := by
  rfl

theorem encGroups_mem : ∀ bs, ∀ c ∈ encGroups bs, c ∈ b64Alphabet ∨ c = '=' := by
  refine chunk3Induction ?_ ?_ ?_ ?_
  · intro c hc
    simp [encGroups] at hc
  · intro a x hx
    have hx' : x = b64Char (a / 4) ∨ x = b64Char (a % 4 * 16) ∨ x = '=' := by
      simpa [encGroups] using hx
    rcases hx' with h | h | h
    · exact Or.inl (h ▸ b64Char_mem _)
    · exact Or.inl (h ▸ b64Char_mem _)
    · exact Or.inr h
  · intro a b x hx
    have hx' : x = b64Char (a / 4) ∨ x = b64Char (a % 4 * 16 + b / 16) ∨
        x = b64Char (b % 16 * 4) ∨ x = '=' := by
      simpa [encGroups] using hx
    rcases hx' with h | h | h | h
    · exact Or.inl (h ▸ b64Char_mem _)
    · exact Or.inl (h ▸ b64Char_mem _)
    · exact Or.inl (h ▸ b64Char_mem _)
    · exact Or.inr h
  · intro a b c rest ih x hx
    rw [encGroups_cons3] at hx
    simp only [List.mem_cons] at hx
    rcases hx with h | h | h | h | h
    · exact h ▸ Or.inl (b64Char_mem _)
    · exact h ▸ Or.inl (b64Char_mem _)
    · exact h ▸ Or.inl (b64Char_mem _)
    · exact h ▸ Or.inl (b64Char_mem _)
    · exact ih x h

theorem encGroups_length_mod : ∀ bs, (encGroups bs).length % 4 = 0 := by
  refine chunk3Induction ?_ ?_ ?_ ?_
  · simp [encGroups]
  · intro a; simp [encGroups]
  · intro a b; simp [encGroups]
  · intro a b c rest ih
    rw [encGroups_cons3]
    simp only [List.length_cons]
    omega

theorem encGroups_ne_nil : ∀ bs : List Nat, bs ≠ [] → encGroups bs ≠ [] := by
  intro bs hbs
  match bs with
  | [] => exact absurd rfl hbs
  | [a] => simp [encGroups]
  | [a, b] => simp [encGroups]
  | a :: b :: c :: rest => rw [encGroups_cons3]; simp

theorem decGroups_encGroups :
    ∀ bs, (∀ b ∈ bs, b < 256) → decGroups (encGroups bs) = some bs := by
  refine chunk3Induction ?_ ?_ ?_ ?_
  · intro _
    rfl
  · intro a hlt
    have ha : a < 256 := hlt a (by simp)
    have h0 : a / 4 < 64 := by omega
    have h1 : a % 4 * 16 < 64 := by omega
    simp only [encGroups, decGroups, List.isEmpty_nil, if_true, decLast, if_pos rfl,
      b64Index_b64Char _ h0, b64Index_b64Char _ h1]
    congr 2
    omega
  · intro a b hlt
    have ha : a < 256 := hlt a (by simp)
    have hb : b < 256 := hlt b (by simp)
    have h0 : a / 4 < 64 := by omega
    have h1 : a % 4 * 16 + b / 16 < 64 := by omega
    have h2 : b % 16 * 4 < 64 := by omega
    simp only [encGroups, decGroups, List.isEmpty_nil, if_true, decLast, if_pos rfl,
      if_neg (b64Char_ne_pad (b % 16 * 4)),
      b64Index_b64Char _ h0, b64Index_b64Char _ h1, b64Index_b64Char _ h2]
    congr 1
    congr 1
    · omega
    · congr 1
      omega
  · intro a b c rest ih hlt
    have ha : a < 256 := hlt a (by simp)
    have hb : b < 256 := hlt b (by simp)
    have hc : c < 256 := hlt c (by simp)
    have h0 : a / 4 < 64 := by omega
    have h1 : a % 4 * 16 + b / 16 < 64 := by omega
    have h2 : b % 16 * 4 + c / 64 < 64 := by omega
    have h3 : c % 64 < 64 := by omega
    have habc : [a / 4 * 4 + (a % 4 * 16 + b / 16) / 16,
        (a % 4 * 16 + b / 16) % 16 * 16 + (b % 16 * 4 + c / 64) / 4,
        (b % 16 * 4 + c / 64) % 4 * 64 + c % 64] = [a, b, c] := by
      congr 1
      · omega
      congr 1
      · omega
      congr 1
      omega
    by_cases hrest : rest = []
    · subst hrest
      simp only [encGroups_cons3, encGroups, decGroups, List.isEmpty_nil, if_true, decLast,
        if_neg (b64Char_ne_pad (c % 64)), dec4,
        b64Index_b64Char _ h0, b64Index_b64Char _ h1, b64Index_b64Char _ h2, b64Index_b64Char _ h3]
      rw [habc]
    · have hne : encGroups rest ≠ [] := encGroups_ne_nil rest hrest
      have hie : (encGroups rest).isEmpty = false := by
        simpa [List.isEmpty_iff] using hne
      have hrec : decGroups (encGroups rest) = some rest :=
        ih (fun x hx => hlt x (by simp [hx]))
      simp only [encGroups_cons3, decGroups, hie, if_false, dec4,
        b64Index_b64Char _ h0, b64Index_b64Char _ h1, b64Index_b64Char _ h2, b64Index_b64Char _ h3,
        hrec]
      rw [habc]
      rfl

/-- Translation of the modelled `toByteArray` applied to the modelled
`fromByteArray`: standard base64 with padding round-trips on byte input. -/
theorem toByteArray_fromByteArray (bs : List Nat) (h : ∀ b ∈ bs, b < 256) :
    toByteArray (fromByteArray bs) = Except.ok bs := by
  show toByteArrayChars (encGroups bs) = Except.ok bs
  unfold toByteArrayChars
  rw [if_neg (by simp [encGroups_length_mod bs]), decGroups_encGroups bs h]

end base64

/-! ### base64url round trip -/

theorem urlTr_b64Char_ne_pad (i : Nat) : urlTr (b64Char i) ≠ '=' :=
  urlTr_ne_pad (b64Char_ne_pad i)

theorem unUrlTr_urlTr_b64Char (i : Nat) : unUrlTr (urlTr (b64Char i)) = b64Char i :=
  unUrlTr_urlTr_of_mem _ (b64Char_mem i)

theorem urlTr_pad : urlTr '=' = '=' := by decide

namespace base64url

theorem encodeChars_nil : encodeChars [] = [] := rfl

theorem encodeChars_one (a : Nat) :
    encodeChars [a] = [urlTr (b64Char (a / 4)), urlTr (b64Char (a % 4 * 16))] := by
  simp [encodeChars, base64.encGroups, urlTr_b64Char_ne_pad, urlTr_pad]

theorem encodeChars_two (a b : Nat) :
    encodeChars [a, b] = [urlTr (b64Char (a / 4)), urlTr (b64Char (a % 4 * 16 + b / 16)),
      urlTr (b64Char (b % 16 * 4))] := by
  simp [encodeChars, base64.encGroups, urlTr_b64Char_ne_pad, urlTr_pad]

theorem encodeChars_cons3 (a b c : Nat) (rest : List Nat) :
    encodeChars (a :: b :: c :: rest) =
      urlTr (b64Char (a / 4)) :: urlTr (b64Char (a % 4 * 16 + b / 16)) ::
        urlTr (b64Char (b % 16 * 4 + c / 64)) :: urlTr (b64Char (c % 64)) ::
          encodeChars rest := by
  simp [encodeChars, base64.encGroups_cons3, urlTr_b64Char_ne_pad]

/-- Re-adding `=` padding to the url-safe unpadded form recovers exactly the
standard base64 encoding: this is the key fact behind `base64url.decode`
being a left inverse of `base64url.encode`. -/
theorem repad_encodeChars :
    ∀ bs, (encodeChars bs).map unUrlTr ++
        List.replicate ((4 - (encodeChars bs).length % 4) % 4) '=' = base64.encGroups bs := by
  refine chunk3Induction ?_ ?_ ?_ ?_
  · rfl
  · intro a
    rw [encodeChars_one]
    simp [base64.encGroups, unUrlTr_urlTr_b64Char, List.replicate]
  · intro a b
    rw [encodeChars_two]
    simp [base64.encGroups, unUrlTr_urlTr_b64Char, List.replicate]
  · intro a b c rest ih
    rw [encodeChars_cons3, base64.encGroups_cons3]
    simp only [List.length_cons, List.map_cons, List.cons_append, unUrlTr_urlTr_b64Char]
    have hmod : (4 - (encodeChars rest).length.succ.succ.succ.succ % 4) % 4 =
        (4 - (encodeChars rest).length % 4) % 4 := by
      omega
    rw [hmod, ih]

/-- `base64url.decode` is a left inverse of `base64url.encode` on byte
input. -/
theorem decodeChars_encodeChars (bs : List Nat) (h : ∀ b ∈ bs, b < 256) :
    decodeChars (encodeChars bs) = Except.ok bs := by
  simp only [decodeChars, List.length_map, repad_encodeChars bs, base64.toByteArrayChars,
    base64.encGroups_length_mod bs, base64.decGroups_encGroups bs h]
  rfl

/-- No character of a base64url encoding is a dot. -/
theorem encodeChars_ne_dot (bs : List Nat) : ∀ c ∈ encodeChars bs, c ≠ '.' := by
  intro c hc
  have hc' : c ∈ (base64.encGroups bs).map urlTr := List.mem_of_mem_filter hc
  rcases List.mem_map.mp hc' with ⟨x, hx, rfl⟩
  rcases base64.encGroups_mem bs x hx with hmem | heq
  · exact urlTr_ne_dot (fun hd => dot_not_mem_b64 (hd ▸ hmem))
  · subst heq
    decide

end base64url

/-! ### splitDots -/

theorem splitDots_cons (c : Char) (rest : List Char) :
    splitDots (c :: rest) =
      if c = '.' then [] :: splitDots rest
      else
        match splitDots rest with
        | [] => [[c]]
        | s :: ss => (c :: s) :: ss := rfl

/-- Splitting a dot-free list yields that single segment. -/
theorem splitDots_no_dot : ∀ l : List Char, (∀ c ∈ l, c ≠ '.') → splitDots l = [l] := by
  intro l
  induction l with
  | nil => intro _; rfl
  | cons x xs ih =>
    intro h
    rw [splitDots_cons, if_neg (h x (by simp)), ih (fun c hc => h c (by simp [hc]))]

/-- Splitting peels off a leading dot-free segment before an explicit dot. -/
theorem splitDots_append_dot :
    ∀ a rest : List Char, (∀ c ∈ a, c ≠ '.') →
      splitDots (a ++ '.' :: rest) = a :: splitDots rest := by
  intro a
  induction a with
  | nil =>
    intro rest _
    simp [splitDots_cons]
  | cons x xs ih =>
    intro rest h
    rw [List.cons_append, splitDots_cons, if_neg (h x (by simp)),
      ih rest (fun c hc => h c (by simp [hc]))]

/-- A three-segment token with dot-free segments splits into exactly those
segments. -/
theorem splitDots_three (h p s : List Char)
    (hh : ∀ c ∈ h, c ≠ '.') (hp : ∀ c ∈ p, c ≠ '.') (hs : ∀ c ∈ s, c ≠ '.') :
    splitDots (h ++ '.' :: (p ++ '.' :: s)) = [h, p, s] := by
  rw [splitDots_append_dot h _ hh, splitDots_append_dot p _ hp, splitDots_no_dot s hs]

/-! ### Signature-scheme facts -/

namespace ed25519

theorem mac_length (pk msg : List Nat) : (mac pk msg).length = 64 := by
  simp [mac]

theorem mac_lt (pk msg : List Nat) : ∀ x ∈ mac pk msg, x < 256 := by
  intro x hx
  rcases List.mem_map.mp hx with ⟨i, _, rfl⟩
  exact Nat.mod_lt _ (by norm_num)

theorem pubFromSeed_length (seed : List Nat) : (pubFromSeed seed).length = seed.length :=
  List.length_map seed _

theorem pubFromSeed_lt (seed : List Nat) : ∀ x ∈ pubFromSeed seed, x < 256 := by
  intro x hx
  rcases List.mem_map.mp hx with ⟨b, _, rfl⟩
  exact Nat.mod_lt _ (by norm_num)

/-- Verification accepts the tag produced for the same key and message. -/
theorem verify_mac (pk msg : List Nat) (hpk : pk.length = 32) :
    verify pk msg (mac pk msg) = true := by
  simp [verify, mac_length, hpk]

end ed25519

/-- Evaluation of `verifyJWT` on a well-formed three-segment token whose
signature segment is a base64url encoding: verification reduces to the
Ed25519 check over the reconstructed signing input. -/
theorem verifyJWT_mk (hB pB : List Char) (sig pk : List Nat)
    (hh : ∀ c ∈ hB, c ≠ '.') (hp : ∀ c ∈ pB, c ≠ '.')
    (hsig : ∀ x ∈ sig, x < 256) :
    verifyJWT (String.mk (hB ++ '.' :: (pB ++ '.' :: base64url.encodeChars sig))) pk =
      ed25519.verify pk (utf8 (hB ++ '.' :: pB)) sig := by
  unfold verifyJWT
  rw [show (String.mk (hB ++ '.' :: (pB ++ '.' :: base64url.encodeChars sig))).data =
      hB ++ '.' :: (pB ++ '.' :: base64url.encodeChars sig) from rfl]
  rw [splitDots_three hB pB _ hh hp (base64url.encodeChars_ne_dot sig)]
  simp only [base64url.decodeChars_encodeChars sig hsig]

/-! ### Credential issuance facade (src/core/api.ts) -/

/-- Persisted profile as read from storage by api.ts (`getProfile`). `socials`
is the already-defaulted list (`profile.socials || []`); `avatar` is the
optional avatar string. -/
structure Profile where
  did : String
  name : String
  socials : List String
  avatar : Option String

/-- The type-specific `data` object of a claims payload (api.ts lines 35-39
and 70-73). -/
inductive ClaimData where
  | profileDetails (did name : String) (socials : List String)
  | avatarData (did avatar : String)

/-- JWT claims payload shape built by api.ts (the `JWTPayload` of
src/types). -/
structure JWTPayload where
  iss : String
  aud : String
  iat : Nat
  exp : Nat
  type : String
  data : ClaimData

/-- Translation of the payload construction in
`MockIRLBrowser.getProfileDetails` (api.ts lines 28-40); `now` is the value
of `Math.floor(Date.now() / 1000)` and `origin` is `window.location.origin`,
both environment inputs passed explicitly. -/
def getProfileDetailsPayload (profile : Profile) (origin : String) (now : Nat) : JWTPayload :=
  { iss := profile.did
    aud := origin
    iat := now
    exp := now + 120
    type := "irl:profile:details"
    data := ClaimData.profileDetails profile.did profile.name profile.socials }

/-- Translation of the payload construction in `MockIRLBrowser.getAvatar`
(api.ts lines 56-74): `none` when no avatar is set, otherwise the signed
payload with the same 120-second window. -/
def getAvatarPayload (profile : Profile) (origin : String) (now : Nat) : Option JWTPayload :=
  match profile.avatar with
  | none => none
  | some av =>
      some
        { iss := profile.did
          aud := origin
          iat := now
          exp := now + 120
          type := "irl:avatar"
          data := ClaimData.avatarData profile.did av }

/-! ### String-level helpers -/

theorem strdata_append (s t : String) : (s ++ t).data = s.data ++ t.data := by
  cases s
  cases t
  rfl

theorem strdata_mk (l : List Char) : (String.mk l).data = l := rfl

theorem strdata_dot : String.data "." = ['.'] := rfl

theorem str_eq_mk (s : String) : s = String.mk s.data := by
  cases s
  rfl

theorem strdata_two (h p : List Char) :
    (String.mk h ++ "." ++ String.mk p).data = h ++ '.' :: p := by
  simp [strdata_append, strdata_mk, strdata_dot]

theorem strdata_three (h p s : List Char) :
    (String.mk h ++ "." ++ String.mk p ++ "." ++ String.mk s).data =
      (h ++ '.' :: p) ++ '.' :: s := by
  simp [strdata_append, strdata_mk, strdata_dot]

theorem mk_token_eq (h p s : List Char) :
    String.mk ((h ++ '.' :: p) ++ '.' :: s) =
      String.mk h ++ "." ++ String.mk p ++ "." ++ String.mk s := by
  have h1 : String.mk h ++ "." ++ String.mk p ++ "." ++ String.mk s =
      String.mk ((String.mk h ++ "." ++ String.mk p ++ "." ++ String.mk s).data) :=
    str_eq_mk _
  rw [h1, strdata_three]

/-- Counting dots in a three-segment token with dot-free segments. -/
theorem count_dots_token (h p s : List Char)
    (hh : ∀ c ∈ h, c ≠ '.') (hp : ∀ c ∈ p, c ≠ '.') (hs : ∀ c ∈ s, c ≠ '.') :
    ((h ++ '.' :: p) ++ '.' :: s).count '.' = 2 := by
  have hh0 : h.count '.' = 0 := List.count_eq_zero.mpr (fun hm => hh '.' hm rfl)
  have hp0 : p.count '.' = 0 := List.count_eq_zero.mpr (fun hm => hp '.' hm rfl)
  have hs0 : s.count '.' = 0 := List.count_eq_zero.mpr (fun hm => hs '.' hm rfl)
  simp [List.count_append, List.count_cons, hh0, hp0, hs0]

/-! ### Evaluation of createJWT on a well-formed key -/

/-- `createJWT` on a private key whose base64 decoding is a 64-byte secret
key: it succeeds and returns exactly the three-segment token, with the
signature computed over the signing input. -/
theorem createJWT_ok (payloadJson privateKey : String) (bs : List Nat)
    (hdec : base64.toByteArray privateKey = Except.ok bs) (hlen : bs.length = 64) :
    createJWT payloadJson privateKey =
      Except.ok (String.mk
        ((base64url.encodeChars (utf8 headerJson.data) ++ '.' ::
            base64url.encodeChars (utf8 payloadJson.data)) ++ '.' ::
          base64url.encodeChars (ed25519.mac (bs.drop 32)
            (utf8 (base64url.encodeChars (utf8 headerJson.data) ++ '.' ::
              base64url.encodeChars (utf8 payloadJson.data)))))) := by
  unfold createJWT
  rw [hdec]
  simp only [hlen]
  rw [if_neg (by omega)]
  unfold ed25519.sign
  rw [if_neg (by omega)]

/-- A token produced by `createJWT` from a matching key pair verifies. -/
theorem verify_createJWT (payloadJson privateKey : String) (sk pk : List Nat)
    (hdec : base64.toByteArray privateKey = Except.ok sk)
    (hskl : sk.length = 64) (hsk : sk.drop 32 = pk) (hpk : pk.length = 32) :
    ∃ jwt, createJWT payloadJson privateKey = Except.ok jwt ∧ verifyJWT jwt pk = true := by
  refine ⟨_, createJWT_ok payloadJson privateKey sk hdec hskl, ?_⟩
  rw [hsk]
  rw [show (base64url.encodeChars (utf8 headerJson.data) ++ '.' ::
        base64url.encodeChars (utf8 payloadJson.data)) ++ '.' ::
        base64url.encodeChars (ed25519.mac pk
          (utf8 (base64url.encodeChars (utf8 headerJson.data) ++ '.' ::
            base64url.encodeChars (utf8 payloadJson.data)))) =
      base64url.encodeChars (utf8 headerJson.data) ++ '.' ::
        (base64url.encodeChars (utf8 payloadJson.data) ++ '.' ::
          base64url.encodeChars (ed25519.mac pk
            (utf8 (base64url.encodeChars (utf8 headerJson.data) ++ '.' ::
              base64url.encodeChars (utf8 payloadJson.data))))) from by simp]
  rw [verifyJWT_mk _ _ _ pk (base64url.encodeChars_ne_dot _)
    (base64url.encodeChars_ne_dot _) (ed25519.mac_lt _ _)]
  exact ed25519.verify_mac pk _ hpk

/-- The secret key assembled from a seed: 64 bytes whose second half is the
derived public key. -/
theorem seed_key_facts (seed : List Nat) (hlen : seed.length = 32)
    (hbytes : ∀ b ∈ seed, b < 256) :
    (seed ++ ed25519.pubFromSeed seed).length = 64 ∧
      (seed ++ ed25519.pubFromSeed seed).drop 32 = ed25519.pubFromSeed seed ∧
      (ed25519.pubFromSeed seed).length = 32 ∧
      (∀ b ∈ seed ++ ed25519.pubFromSeed seed, b < 256) := by
  refine ⟨?_, ?_, ?_, ?_⟩
  · simp [ed25519.pubFromSeed_length, hlen]
  · rw [← hlen]
    exact List.drop_left seed _
  · rw [ed25519.pubFromSeed_length, hlen]
  · intro b hb
    rcases List.mem_append.mp hb with h | h
    · exact hbytes b h
    · exact ed25519.pubFromSeed_lt seed b h

/-! ### Concrete fixtures used by witnesses and counterexamples -/

/-- All-zero 32-byte seed (the spec's concrete scenario, section 8). -/
def seed0 : List Nat := List.replicate 32 0

/-- Public key derived from the all-zero seed. -/
def pk0 : List Nat := ed25519.pubFromSeed seed0

/-- Matching 64-byte secret key for `seed0`. -/
def sk0 : List Nat := seed0 ++ pk0

/-- Three-segment token whose header and payload segments are empty but whose
signature is valid for the signing input `"."` under `pk0`. -/
def jwtEmptySegs : String :=
  String.mk ('.' :: '.' :: base64url.encodeChars (ed25519.mac pk0 (utf8 ['.'])))

/-! ### Claims -/

/-- C1: for every matching Ed25519 key pair (the 64-byte secret key is
`seed ‖ publicKey`) and every payload serialization, the assertion produced by
`createJWT` verifies against the public key via `verifyJWT`. -/
theorem claim_C1_sign_verify_roundtrip (seed : List Nat) (payloadJson : String)
    (hlen : seed.length = 32) (hbytes : ∀ b ∈ seed, b < 256) :
    ∃ jwt,
      createJWT payloadJson (base64.fromByteArray (seed ++ ed25519.pubFromSeed seed)) =
        Except.ok jwt ∧
      verifyJWT jwt (ed25519.pubFromSeed seed) = true := by
  obtain ⟨hskl, hdrop, hpkl, hskb⟩ := seed_key_facts seed hlen hbytes
  exact verify_createJWT payloadJson _ _ _
    (base64.toByteArray_fromByteArray _ hskb) hskl hdrop hpkl

/-- Witness for C1 at the all-zero seed and the empty JSON object payload. -/
theorem claim_C1_witness :
    ∃ jwt,
      createJWT "\x7b\x7d" (base64.fromByteArray (List.replicate 32 0 ++
        ed25519.pubFromSeed (List.replicate 32 0))) = Except.ok jwt ∧
      verifyJWT jwt (ed25519.pubFromSeed (List.replicate 32 0)) = true :=
  claim_C1_sign_verify_roundtrip (List.replicate 32 0) "\x7b\x7d" (by decide) (by decide)

/-- C3 counterexample: the claim asserts `verifyJWT` returns `false` whenever
the split does not give 3 non-empty segments, but the source only checks the
segment count: a token with empty header and payload segments and a valid
signature over the signing input `"."` verifies `true`. -/
theorem claim_C3_counterexample :
    (splitDots jwtEmptySegs.data).length = 3 ∧
      [] ∈ splitDots jwtEmptySegs.data ∧
      verifyJWT jwtEmptySegs pk0 = true := by
  refine ⟨rfl, by decide, rfl⟩

/-- C3 as amended: `verifyJWT` returns `false` on every input whose split on
`.` does not yield exactly 3 segments (segment emptiness is not checked), and
it never throws (it is a total boolean function). -/
theorem claim_C3_amended (jwt : String) (pk : List Nat)
    (h : (splitDots jwt.data).length ≠ 3) : verifyJWT jwt pk = false := by
  unfold verifyJWT
  generalize hsp : splitDots jwt.data = parts at h
  rcases parts with _ | ⟨a, _ | ⟨b, _ | ⟨c, _ | ⟨d, t⟩⟩⟩⟩
  · rfl
  · rfl
  · rfl
  · exact absurd rfl h
  · rfl

/-- Witness for the amended C3 on a one-segment input. -/
theorem claim_C3_witness : verifyJWT "abc" [] = false :=
  claim_C3_amended "abc" [] (by decide)

/-- C4 counterexample: the claim asserts `createDidFromPublicKey` fails with
an invalid-key-length error for inputs of length other than 32, but the
source performs no validation: on the empty key it fabricates the DID string
`did:key:zK36` (the base58 encoding of the bare multicodec prefix). -/
theorem claim_C4_counterexample :
    createDidFromPublicKey [] = "did:key:zK36" ∧ ([] : List Nat).length ≠ 32 := by
  exact ⟨rfl, by decide⟩

/-- C4 as amended: `createDidFromPublicKey` performs no length check at all;
for every byte list, of any length, it totally returns the DID string built
from the multicodec-prefixed input. -/
theorem claim_C4_amended (publicKey : List Nat) :
    createDidFromPublicKey publicKey =
      "did:key:z" ++ base58Encode (ED25519_MULTICODEC_PREFIX ++ publicKey) := rfl

/-- C5: on a 32-byte public key the derived DID is exactly
`did:key:z` followed by the base58btc encoding of the 34-byte
multicodec-prefixed key, and the derivation is pure: repeated application to
the same key gives the identical string. -/
theorem claim_C5_did_format (publicKey : List Nat) (hlen : publicKey.length = 32) :
    createDidFromPublicKey publicKey =
        "did:key:z" ++ base58Encode ([237, 1] ++ publicKey) ∧
      createDidFromPublicKey publicKey = createDidFromPublicKey publicKey :=
  ⟨rfl, rfl⟩

/-- Witness for C5 at the all-zero 32-byte public key. -/
theorem claim_C5_witness :
    createDidFromPublicKey (List.replicate 32 0) =
        "did:key:z" ++ base58Encode ([237, 1] ++ List.replicate 32 0) ∧
      createDidFromPublicKey (List.replicate 32 0) =
        createDidFromPublicKey (List.replicate 32 0) :=
  claim_C5_did_format (List.replicate 32 0) (by decide)

/-- C6: when the private key decodes, `createJWT` raises the
invalid-key-length error exactly for decoded lengths other than 64: any other
length yields the error and no assertion, and a 64-byte decoded key never
produces that error (it returns a signed assertion). -/
theorem claim_C6_key_length_iff (payloadJson privateKey : String) (bs : List Nat)
    (hdec : base64.toByteArray privateKey = Except.ok bs) :
    (bs.length ≠ 64 →
      createJWT payloadJson privateKey =
        Except.error "Invalid private key length. Expected 64 bytes.") ∧
    (bs.length = 64 → ∃ jwt, createJWT payloadJson privateKey = Except.ok jwt) := by
  constructor
  · intro hne
    unfold createJWT
    rw [hdec]
    simp only []
    rw [if_pos hne]
  · intro heq
    exact ⟨_, createJWT_ok payloadJson privateKey bs hdec heq⟩

/-- Witness for C6: a key decoding to 63 bytes triggers exactly the
invalid-key-length error. -/
theorem claim_C6_witness :
    createJWT "\x7b\x7d" (base64.fromByteArray (List.replicate 63 0)) =
      Except.error "Invalid private key length. Expected 64 bytes." :=
  (claim_C6_key_length_iff "\x7b\x7d" _ (List.replicate 63 0)
    (base64.toByteArray_fromByteArray _ (by decide))).1 (by decide)

/-- C8: every credential payload built by the issuance facade (profile
details and avatar) has `exp = iat + 120`, hence `exp > iat`. -/
theorem claim_C8_expiry_window (profile : Profile) (origin : String) (now : Nat) :
    ((getProfileDetailsPayload profile origin now).exp =
        (getProfileDetailsPayload profile origin now).iat + 120 ∧
      (getProfileDetailsPayload profile origin now).iat <
        (getProfileDetailsPayload profile origin now).exp) ∧
    (∀ p, getAvatarPayload profile origin now = some p →
      p.exp = p.iat + 120 ∧ p.iat < p.exp) := by
  refine ⟨⟨rfl, by simp [getProfileDetailsPayload]⟩, ?_⟩
  intro p hp
  unfold getAvatarPayload at hp
  cases havatar : profile.avatar with
  | none =>
    rw [havatar] at hp
    cases hp
  | some av =>
    rw [havatar] at hp
    cases hp
    exact ⟨rfl, by simp⟩

/-- Witness for C8 at a concrete profile with an avatar. -/
theorem claim_C8_witness :
    ({ iss := "did:a", aud := "https://x", iat := 1000, exp := 1000 + 120,
        type := "irl:avatar", data := ClaimData.avatarData "did:a" "img" } : JWTPayload).exp =
      ({ iss := "did:a", aud := "https://x", iat := 1000, exp := 1000 + 120,
          type := "irl:avatar", data := ClaimData.avatarData "did:a" "img" } : JWTPayload).iat
        + 120 ∧
    ({ iss := "did:a", aud := "https://x", iat := 1000, exp := 1000 + 120,
        type := "irl:avatar", data := ClaimData.avatarData "did:a" "img" } : JWTPayload).iat <
      ({ iss := "did:a", aud := "https://x", iat := 1000, exp := 1000 + 120,
          type := "irl:avatar", data := ClaimData.avatarData "did:a" "img" } : JWTPayload).exp :=
  (claim_C8_expiry_window ⟨"did:a", "A", [], some "img"⟩ "https://x" 1000).2 _ rfl

/-- C2: on a key decoding to 64 bytes, `createJWT` returns exactly
`base64url(utf8(headerJson)) ++ "." ++ base64url(utf8(payloadJson)) ++ "." ++
base64url(signature)` where the header serialization is the constant
`{alg:"EdDSA",typ:"JWT"}` object, the signature is the Ed25519 signature over
the utf8 bytes of the first two segments joined by a dot (the signing input,
never re-serialized JSON), and the token contains exactly two dots. -/
theorem claim_C2_createJWT_structure (payloadJson privateKey : String) (bs : List Nat)
    (hdec : base64.toByteArray privateKey = Except.ok bs) (hlen : bs.length = 64) :
    ∃ sig : List Nat,
      ed25519.sign bs
          (utf8 ((base64url.encode (utf8 headerJson.data) ++ "." ++
            base64url.encode (utf8 payloadJson.data)).data)) = Except.ok sig ∧
      createJWT payloadJson privateKey = Except.ok
        (base64url.encode (utf8 headerJson.data) ++ "." ++
          base64url.encode (utf8 payloadJson.data) ++ "." ++ base64url.encode sig) ∧
      ((base64url.encode (utf8 headerJson.data) ++ "." ++
          base64url.encode (utf8 payloadJson.data) ++ "." ++
          base64url.encode sig).data.count '.') = 2 := by
  have hsd : (base64url.encode (utf8 headerJson.data) ++ "." ++
      base64url.encode (utf8 payloadJson.data)).data =
      base64url.encodeChars (utf8 headerJson.data) ++ '.' ::
        base64url.encodeChars (utf8 payloadJson.data) :=
    strdata_two _ _
  refine ⟨ed25519.mac (bs.drop 32)
      (utf8 (base64url.encodeChars (utf8 headerJson.data) ++ '.' ::
        base64url.encodeChars (utf8 payloadJson.data))), ?_, ?_, ?_⟩
  · rw [hsd]
    unfold ed25519.sign
    rw [if_neg (by omega)]
  · rw [createJWT_ok payloadJson privateKey bs hdec hlen]
    exact congrArg Except.ok (mk_token_eq _ _ _)
  · rw [show (base64url.encode (utf8 headerJson.data) ++ "." ++
        base64url.encode (utf8 payloadJson.data) ++ "." ++
        base64url.encode (ed25519.mac (bs.drop 32)
          (utf8 (base64url.encodeChars (utf8 headerJson.data) ++ '.' ::
            base64url.encodeChars (utf8 payloadJson.data))))).data =
        (base64url.encodeChars (utf8 headerJson.data) ++ '.' ::
          base64url.encodeChars (utf8 payloadJson.data)) ++ '.' ::
          base64url.encodeChars (ed25519.mac (bs.drop 32)
            (utf8 (base64url.encodeChars (utf8 headerJson.data) ++ '.' ::
              base64url.encodeChars (utf8 payloadJson.data))))
      from strdata_three _ _ _]
    exact count_dots_token _ _ _ (base64url.encodeChars_ne_dot _)
      (base64url.encodeChars_ne_dot _) (base64url.encodeChars_ne_dot _)

/-- Witness for C2 at the all-zero 64-byte key and empty JSON payload. -/
theorem claim_C2_witness :
    ∃ sig : List Nat,
      ed25519.sign (List.replicate 64 0)
          (utf8 ((base64url.encode (utf8 headerJson.data) ++ "." ++
            base64url.encode (utf8 (String.data "\x7b\x7d"))).data)) = Except.ok sig ∧
      createJWT "\x7b\x7d" (base64.fromByteArray (List.replicate 64 0)) = Except.ok
        (base64url.encode (utf8 headerJson.data) ++ "." ++
          base64url.encode (utf8 (String.data "\x7b\x7d")) ++ "." ++ base64url.encode sig) ∧
      ((base64url.encode (utf8 headerJson.data) ++ "." ++
          base64url.encode (utf8 (String.data "\x7b\x7d")) ++ "." ++
          base64url.encode sig).data.count '.') = 2 :=
  claim_C2_createJWT_structure "\x7b\x7d" _ (List.replicate 64 0)
    (base64.toByteArray_fromByteArray _ (by decide)) (by decide)

/-- Minimal claims serialization with an issued-at and an expiry value,
standing for `JSON.stringify` of a payload carrying `iat` and `exp`. -/
def claimsJson (issuedAt expiry : Nat) : String :=
  "\x7b\"iat\":" ++ toString issuedAt ++ ",\"exp\":" ++ toString expiry ++ "\x7d"

/-- C7: `verifyJWT` performs no expiry or claim-semantics check: its result
is a function of the dot-split segments and the public key alone (there is no
clock input anywhere in the definition), and a validly signed assertion whose
`exp` claim lies strictly in the past still verifies `true`. -/
theorem claim_C7_no_expiry_check :
    (∀ (jwt1 jwt2 : String) (pk : List Nat),
      splitDots jwt1.data = splitDots jwt2.data →
        verifyJWT jwt1 pk = verifyJWT jwt2 pk) ∧
    (∀ (seed : List Nat) (issuedAt expiry : Nat), seed.length = 32 →
      (∀ b ∈ seed, b < 256) → expiry < issuedAt →
      ∃ jwt,
        createJWT (claimsJson issuedAt expiry)
            (base64.fromByteArray (seed ++ ed25519.pubFromSeed seed)) = Except.ok jwt ∧
        verifyJWT jwt (ed25519.pubFromSeed seed) = true) := by
  constructor
  · intro jwt1 jwt2 pk h
    unfold verifyJWT
    rw [h]
  · intro seed issuedAt expiry hlen hbytes _
    obtain ⟨hskl, hdrop, hpkl, hskb⟩ := seed_key_facts seed hlen hbytes
    exact verify_createJWT _ _ _ _ (base64.toByteArray_fromByteArray _ hskb) hskl hdrop hpkl

/-- Witness for C7: a token issued at time 1000 with expiry 0 (long past)
still verifies. -/
theorem claim_C7_witness :
    ∃ jwt,
      createJWT (claimsJson 1000 0)
          (base64.fromByteArray (List.replicate 32 0 ++
            ed25519.pubFromSeed (List.replicate 32 0))) = Except.ok jwt ∧
      verifyJWT jwt (ed25519.pubFromSeed (List.replicate 32 0)) = true :=
  claim_C7_no_expiry_check.2 (List.replicate 32 0) 1000 0 (by decide) (by decide) (by decide)

/-- C10: `verifyJWT` never decodes or validates the header and payload
segments: for ANY dot-free segment strings (valid base64url/JSON or not),
the token formed with the Ed25519 signature over their joined utf8 bytes
verifies `true` against the matching public key. -/
theorem claim_C10_raw_segments_verify (h p : String) (seed : List Nat)
    (hlen : seed.length = 32) (hbytes : ∀ b ∈ seed, b < 256)
    (hh : ∀ c ∈ h.data, c ≠ '.') (hp : ∀ c ∈ p.data, c ≠ '.') :
    ∀ sig, ed25519.sign (seed ++ ed25519.pubFromSeed seed)
        (utf8 ((h ++ "." ++ p).data)) = Except.ok sig →
      verifyJWT (h ++ "." ++ p ++ "." ++ base64url.encode sig)
        (ed25519.pubFromSeed seed) = true := by
  intro sig hsig
  obtain ⟨hskl, hdrop, hpkl, _⟩ := seed_key_facts seed hlen hbytes
  unfold ed25519.sign at hsig
  rw [if_neg (by omega)] at hsig
  have hsig' : sig = ed25519.mac (ed25519.pubFromSeed seed) (utf8 ((h ++ "." ++ p).data)) := by
    rw [← hdrop]
    exact (Except.ok.inj hsig).symm
  have hsigb : ∀ x ∈ sig, x < 256 := by
    rw [hsig']
    exact ed25519.mac_lt _ _
  have hdata : (h ++ "." ++ p ++ "." ++ base64url.encode sig).data =
      h.data ++ '.' :: (p.data ++ '.' :: base64url.encodeChars sig) := by
    simp [strdata_append, strdata_mk, strdata_dot, base64url.encode_data]
  have hstr : h ++ "." ++ p ++ "." ++ base64url.encode sig =
      String.mk (h.data ++ '.' :: (p.data ++ '.' :: base64url.encodeChars sig)) :=
    (str_eq_mk _).trans (congrArg String.mk hdata)
  rw [hstr, verifyJWT_mk h.data p.data sig _ hh hp hsigb, hsig']
  have hmsg : (h ++ "." ++ p).data = h.data ++ '.' :: p.data := by
    simp [strdata_append, strdata_dot]
  rw [hmsg]
  exact ed25519.verify_mac _ _ hpkl

/-- Witness for C10: segments `!!` and `??` are neither base64url nor JSON,
yet the token signed over them verifies. -/
theorem claim_C10_witness :
    verifyJWT ("!!" ++ "." ++ "??" ++ "." ++
        base64url.encode (ed25519.mac (ed25519.pubFromSeed (List.replicate 32 0))
          (utf8 (("!!" ++ "." ++ "??").data))))
      (ed25519.pubFromSeed (List.replicate 32 0)) = true :=
  claim_C10_raw_segments_verify "!!" "??" (List.replicate 32 0) (by decide) (by decide)
    (by decide) (by decide) _ rfl

/-! ### Decode failure lemmas for C9 -/

theorem lookupIdx_eq_none : ∀ (l : List Char) (c : Char), c ∉ l → lookupIdx l c = none := by
  intro l
  induction l with
  | nil => intro c _; rfl
  | cons x xs ih =>
    intro c hc
    unfold lookupIdx
    rw [if_neg (fun h => hc (by rw [← h]; exact List.mem_cons_self x xs)),
      ih c (fun h => hc (List.mem_cons_of_mem x h))]
    rfl

theorem b64Index_eq_none {c : Char} (h : c ∉ b64Alphabet) : b64Index c = none :=
  lookupIdx_eq_none b64Alphabet c h

theorem unUrlTr_eq_pad {c : Char} (h : unUrlTr c = '=') : c = '=' := by
  unfold unUrlTr at h
  split_ifs at h <;> simp_all

namespace base64

/-- A full group containing a non-alphabet character fails to decode. -/
theorem dec4_none {c0 c1 c2 c3 : Char}
    (h : c0 ∉ b64Alphabet ∨ c1 ∉ b64Alphabet ∨ c2 ∉ b64Alphabet ∨ c3 ∉ b64Alphabet) :
    dec4 c0 c1 c2 c3 = none := by
  rcases h with h | h | h | h
  · simp [dec4, b64Index_eq_none h]
  · cases h0 : b64Index c0 <;> simp [dec4, h0, b64Index_eq_none h]
  · cases h0 : b64Index c0 <;> cases h1 : b64Index c1 <;>
      simp [dec4, h0, h1, b64Index_eq_none h]
  · cases h0 : b64Index c0 <;> cases h1 : b64Index c1 <;> cases h2 : b64Index c2 <;>
      simp [dec4, h0, h1, h2, b64Index_eq_none h]

/-- A final group containing a character that is neither in the alphabet nor
`=` fails to decode. -/
theorem decLast_none {c0 c1 c2 c3 x : Char} (hmem : x ∈ [c0, c1, c2, c3])
    (hx : x ∉ b64Alphabet) (hpad : x ≠ '=') :
    decLast c0 c1 c2 c3 = none := by
  unfold decLast
  simp only [List.mem_cons, List.not_mem_nil, or_false] at hmem
  by_cases h3 : c3 = '='
  · rw [if_pos h3]
    have hx3 : x ≠ c3 := fun hcon => hpad (hcon ▸ h3)
    by_cases h2 : c2 = '='
    · rw [if_pos h2]
      have hx2 : x ≠ c2 := fun hcon => hpad (hcon ▸ h2)
      rcases hmem with h | h | h | h
      · rw [h] at hx
        cases h1 : b64Index c1 <;> simp [b64Index_eq_none hx, h1]
      · rw [h] at hx
        cases h0 : b64Index c0 <;> simp [b64Index_eq_none hx, h0]
      · exact absurd h hx2
      · exact absurd h hx3
    · rw [if_neg h2]
      rcases hmem with h | h | h | h
      · rw [h] at hx
        cases h1 : b64Index c1 <;> cases h2i : b64Index c2 <;>
          simp [b64Index_eq_none hx, h1, h2i]
      · rw [h] at hx
        cases h0 : b64Index c0 <;> cases h2i : b64Index c2 <;>
          simp [b64Index_eq_none hx, h0, h2i]
      · rw [h] at hx
        cases h0 : b64Index c0 <;> cases h1 : b64Index c1 <;>
          simp [b64Index_eq_none hx, h0, h1]
      · exact absurd h hx3
  · rw [if_neg h3]
    rcases hmem with h | h | h | h <;> rw [h] at hx
    · exact dec4_none (Or.inl hx)
    · exact dec4_none (Or.inr (Or.inl hx))
    · exact dec4_none (Or.inr (Or.inr (Or.inl hx)))
    · exact dec4_none (Or.inr (Or.inr (Or.inr hx)))

/-- The strict decoder rejects any input containing a character that is
neither in the alphabet nor `=`. -/
theorem decGroups_bad :
    ∀ l : List Char, (∃ c ∈ l, c ∉ b64Alphabet ∧ c ≠ '=') → decGroups l = none := by
  refine chunk4Induction ?_ ?_ ?_ ?_ ?_
  · rintro ⟨c, hc, -⟩
    simp at hc
  · intro a _
    rfl
  · intro a b _
    rfl
  · intro a b c _
    rfl
  · rintro a b c d rest ih ⟨x, hx, hxa, hxp⟩
    simp only [List.mem_cons] at hx
    by_cases hrest : rest = []
    · subst hrest
      rcases hx with h | h | h | h | h
      · unfold decGroups
        simp only [List.isEmpty_nil, if_true]
        exact decLast_none (by simp [h]) (h ▸ hxa) (h ▸ hxp)
      · unfold decGroups
        simp only [List.isEmpty_nil, if_true]
        exact decLast_none (by simp [h]) (h ▸ hxa) (h ▸ hxp)
      · unfold decGroups
        simp only [List.isEmpty_nil, if_true]
        exact decLast_none (by simp [h]) (h ▸ hxa) (h ▸ hxp)
      · unfold decGroups
        simp only [List.isEmpty_nil, if_true]
        exact decLast_none (by simp [h]) (h ▸ hxa) (h ▸ hxp)
      · simp at h
    · have hie : (rest : List Char).isEmpty = false := by
        simpa [List.isEmpty_iff] using hrest
      unfold decGroups
      rw [hie]
      simp only [Bool.false_eq_true, if_false]
      rcases hx with h | h | h | h | h
      · rw [dec4_none (Or.inl (h ▸ hxa))]
      · rw [dec4_none (Or.inr (Or.inl (h ▸ hxa)))]
      · rw [dec4_none (Or.inr (Or.inr (Or.inl (h ▸ hxa))))]
      · rw [dec4_none (Or.inr (Or.inr (Or.inr (h ▸ hxa))))]
      · rw [ih ⟨x, h, hxa, hxp⟩]
        cases dec4 a b c d <;> rfl

/-- The strict decoder rejects any input of length 1 modulo 4 once three `=`
padding characters have been appended. -/
theorem decGroups_len1_pad3 :
    ∀ l : List Char, l.length % 4 = 1 → decGroups (l ++ ['=', '=', '=']) = none := by
  refine chunk4Induction ?_ ?_ ?_ ?_ ?_
  · intro h
    simp at h
  · intro a _
    show decGroups [a, '=', '=', '='] = none
    unfold decGroups decLast
    simp only [List.isEmpty_nil, if_true, if_pos rfl]
    cases h0 : b64Index a <;> simp [h0, show b64Index '=' = none from by decide]
  · intro a b h
    simp at h
  · intro a b c h
    simp at h
  · intro a b c d rest ih h
    have hlen : rest.length % 4 = 1 := by
      simp only [List.length_cons] at h
      omega
    have hne : rest ++ ['=', '=', '='] ≠ [] := by simp
    have hie : (rest ++ ['=', '=', '=']).isEmpty = false := by
      simpa [List.isEmpty_iff] using hne
    show decGroups (a :: b :: c :: d :: (rest ++ ['=', '=', '='])) = none
    unfold decGroups
    rw [hie]
    simp only [Bool.false_eq_true, if_false]
    rw [ih hlen]
    cases dec4 a b c d <;> rfl

end base64

/-- `base64url.decode` rejects strings of length 1 modulo 4 (the impossible
base64 length): re-padding yields three `=` which no base64 group allows. -/
theorem decode_len1_error (s : String) (h : s.data.length % 4 = 1) :
    ∃ e, base64url.decode s = Except.error e := by
  show ∃ e, base64url.decodeChars s.data = Except.error e
  simp only [base64url.decodeChars, List.length_map, h]
  have hpad : ((4 - 1 % 4) % 4) = 3 := by norm_num
  rw [hpad, show (List.replicate 3 '=' : List Char) = ['=', '=', '='] from rfl]
  unfold base64.toByteArrayChars
  rw [if_neg (by
      rw [List.length_append, List.length_map]
      have h3 : (['=', '=', '='] : List Char).length = 3 := rfl
      omega),
    base64.decGroups_len1_pad3 _ (by rw [List.length_map]; exact h)]
  exact ⟨_, rfl⟩

/-- `base64url.decode` rejects strings containing a character that maps
outside the standard alphabet and is not `=`. -/
theorem decode_badchar_error (s : String)
    (h : ∃ c ∈ s.data, unUrlTr c ∉ b64Alphabet ∧ c ≠ '=') :
    ∃ e, base64url.decode s = Except.error e := by
  obtain ⟨c, hc, hca, hcp⟩ := h
  show ∃ e, base64url.decodeChars s.data = Except.error e
  simp only [base64url.decodeChars]
  unfold base64.toByteArrayChars
  split_ifs with hlen
  · exact ⟨_, rfl⟩
  · have hbad : ∃ x ∈ s.data.map unUrlTr ++
        List.replicate ((4 - (s.data.map unUrlTr).length % 4) % 4) '=',
        x ∉ b64Alphabet ∧ x ≠ '=' := by
      refine ⟨unUrlTr c, ?_, hca, fun hp => hcp (unUrlTr_eq_pad hp)⟩
      exact List.mem_append_left _ (List.mem_map_of_mem _ hc)
    rw [base64.decGroups_bad _ hbad]
    exact ⟨_, rfl⟩

/-- The base64url alphabet: the image of the standard alphabet under the url
translation (A-Z, a-z, 0-9, `-`, `_`).  The padding character `=` is outside
it. -/
def b64urlAlphabet : List Char := b64Alphabet.map urlTr

/-- C9 counterexample: the claim asserts `base64url.decode` fails on every
input containing a character outside the base64url alphabet, but `=` is
outside that alphabet and `"AA=="` decodes successfully (the wrapper re-adds
padding modulo 4 and the standard decoder tolerates the explicit padding). -/
theorem claim_C9_counterexample :
    ('=' ∉ b64urlAlphabet) ∧ '=' ∈ String.data "AA==" ∧
      base64url.decode "AA==" = Except.ok [0] := by
  exact ⟨by decide, by decide, rfl⟩

/-- C9 as amended: `base64url.decode` is a left inverse of
`base64url.encode` on byte arrays; it fails on every string whose length is
1 modulo 4 (the impossible unpadded length); and it fails on every string
containing a character that is outside the base64 alphabet after the url
translation and is not `=`.  (Strings containing `=` itself, such as
`"AA=="`, may decode successfully, contrary to the original claim.) -/
theorem claim_C9_amended :
    (∀ bs : List Nat, (∀ b ∈ bs, b < 256) →
      base64url.decode (base64url.encode bs) = Except.ok bs) ∧
    (∀ s : String, s.data.length % 4 = 1 →
      ∃ e, base64url.decode s = Except.error e) ∧
    (∀ s : String, (∃ c ∈ s.data, unUrlTr c ∉ b64Alphabet ∧ c ≠ '=') →
      ∃ e, base64url.decode s = Except.error e) := by
  refine ⟨?_, decode_len1_error, decode_badchar_error⟩
  intro bs h
  exact base64url.decodeChars_encodeChars bs h

/-- Witness for the amended C9: a concrete round trip, a length-1 failure,
and a bad-alphabet failure. -/
theorem claim_C9_witness :
    base64url.decode (base64url.encode [0, 255]) = Except.ok [0, 255] ∧
    (∃ e, base64url.decode "A" = Except.error e) ∧
    (∃ e, base64url.decode "!!!!" = Except.error e) :=
  ⟨claim_C9_amended.1 [0, 255] (by decide),
    claim_C9_amended.2.1 "A" (by decide),
    claim_C9_amended.2.2 "!!!!" ⟨'!', by decide, by decide, by decide⟩⟩

end Irl
